import Mathlib

/-!
Verification of the VaultMind staged-entry trading calculator.

The computational core of the repository lives in
`src/components/TradingCalculator.tsx`:

* `formatNumber` — safe fixed-point formatting with a `'0.0000'` fallback;
* `generatePositions` — the staged-entry plan generator: a loop over
  `additionalPositions + 1` steps producing one `Position` per step,
  tracking a compounding price ladder (5% per step), running totals,
  weighted average price and cumulative loss.

The arithmetic of the source is JavaScript floating point; the spec
(§4.2 "Numeric semantics") declares the algorithm's semantics to be
real-valued, so the embedding uses `ℚ` (all constants of the program,
`0.05` included, are exactly representable).

The validating `compute` facade and the liquidation estimator described
by the spec (§4.3, §4.4) have no counterpart under `src/`; they are
modelled from the spec, and flagged as such, where a claim needs them.
-/

set_option maxHeartbeats 1000000

namespace VaultMind

/-- trade direction, source field `direction: 'long' | 'short'`. -/
inductive Direction where
  | long
  | short
deriving DecidableEq, Repr

/-- the raw input record, source interface `CalculatorForm`
(`maxLoss` is the spec's `riskBudget`, `additionalPositionAmount` the
spec's `entryRatio`, `additionalPositions` the spec's
`additionalEntries`). `additionalPositions` is an integer that may be
negative, matching the unvalidated `number` field of the source. -/
structure CalculatorForm where
  maxLoss : ℚ
  additionalPositionAmount : ℚ
  additionalPositions : ℤ
  direction : Direction
  initialPrice : ℚ
  leverage : ℚ
deriving DecidableEq, Repr

/-- one row of the plan, source interface `Position`.
`amount` is this step's quantity (`qty`), `entryAmount` this step's
capital, `totalAmount`/`totalQty` the running sums, `avgPrice` the
weighted average, `cumulativeLoss` the worst-case unrealized loss. -/
structure Position where
  key : ℕ
  price : ℚ
  amount : ℚ
  entryAmount : ℚ
  totalAmount : ℚ
  totalQty : ℚ
  avgPrice : ℚ
  cumulativeLoss : ℚ
deriving DecidableEq, Repr, Inhabited

/-- the fixed 5% step, source line `const priceStep = 0.05`. -/
def priceStep : ℚ := 0.05

/-- one application of the price update of the loop body:
`price * (1 - priceStep)` for long, `price * (1 + priceStep)` for short. -/
def stepPrice (direction : Direction) (price : ℚ) : ℚ :=
  match direction with
  | .long => price * (1 - priceStep)
  | .short => price * (1 + priceStep)

/-- the loop of `generatePositions`, as structural recursion on the
number of remaining iterations. Arguments after `entryAmount`:
remaining iteration count, current loop index `i`, and the mutable
state `price`, `totalAmount`, `totalQty` of the source. The body is a
field-by-field transcription of the loop body of the source
(`TradingCalculator.tsx`, lines 70–98). -/
def genFrom (direction : Direction) (entryAmount : ℚ) :
    ℕ → ℕ → ℚ → ℚ → ℚ → List Position
  | 0, _, _, _, _ => []
  | remaining + 1, i, price, totalAmount, totalQty =>
    let price1 := if 0 < i then stepPrice direction price else price
    let qty := entryAmount / price1
    let totalAmount1 := totalAmount + entryAmount
    let totalQty1 := totalQty + qty
    let avgPrice := totalAmount1 / totalQty1
    let cumulativeLoss :=
      match direction with
      | .long => (avgPrice - price1) * totalQty1
      | .short => (price1 - avgPrice) * totalQty1
    { key := i + 1, price := price1, amount := qty, entryAmount := entryAmount,
      totalAmount := totalAmount1, totalQty := totalQty1, avgPrice := avgPrice,
      cumulativeLoss := cumulativeLoss } ::
      genFrom direction entryAmount remaining (i + 1) price1 totalAmount1 totalQty1

/-- the plan generator, source function `generatePositions`. The source
loop `for (let i = 0; i < entryCount; i++)` runs `entryCount` times when
`entryCount > 0` and zero times otherwise, hence `Int.toNat`. -/
def generatePositions (values : CalculatorForm) : List Position :=
  let entryCount : ℤ := values.additionalPositions + 1
  let entryAmount : ℚ := values.maxLoss * values.additionalPositionAmount
  genFrom values.direction entryAmount entryCount.toNat 0 values.initialPrice 0 0

/-- result of coercing a JavaScript value with `Number(value)`: either a
real number or `NaN` (any non-numeric or undefined input). -/
inductive JSNumber where
  | nan
  | num (q : ℚ)
deriving DecidableEq, Repr

/-- model of `Number.prototype.toFixed` on real-valued semantics: round
to `d` decimal places (half away from zero towards +∞, per ECMA-262:
"if there are two such n, pick the larger n") and render with exactly
`d` digits after the point. -/
def toFixed (q : ℚ) (d : ℕ) : String :=
  let n : ℤ := ⌊q * (10 : ℚ) ^ d + 1 / 2⌋
  let sign := if n < 0 then "-" else ""
  let m : ℕ := n.natAbs
  let ip : ℕ := m / 10 ^ d
  let fp : ℕ := m % 10 ^ d
  if d = 0 then
    sign ++ toString ip
  else
    let fs := toString fp
    sign ++ toString ip ++ "." ++ String.mk (List.replicate (d - fs.length) '0') ++ fs

/-- the safe formatter, source function `formatNumber`: a non-numeric
input (`isNaN(Number(value))`) returns the literal string `'0.0000'`,
otherwise `num.toFixed(decimals)`. -/
def formatNumber (value : JSNumber) (decimals : ℕ) : String :=
  match value with
  | .nan => "0.0000"
  | .num q => toFixed q decimals

/-- Modelled from the spec: the §3 input invariants — `riskBudget > 0`,
`entryRatio > 0`, `additionalEntries ≥ 0`, `initialPrice > 0`,
`leverage > 0` — which the spec's `CalculatorFacade` (§4.4) checks; no
validation code exists under `src/`. -/
def validInput (v : CalculatorForm) : Prop :=
  0 < v.maxLoss ∧ 0 < v.additionalPositionAmount ∧ 0 ≤ v.additionalPositions ∧
    0 < v.initialPrice ∧ 0 < v.leverage

instance (v : CalculatorForm) : Decidable (validInput v) := by
  unfold validInput
  infer_instance

/-- Modelled from the spec: the error taxonomy of §7; only `InvalidInput`
is an error value. -/
inductive ValidationError where
  | invalidInput
deriving DecidableEq, Repr

/-- Modelled from the spec: the liquidation estimator of §4.3 — absent
from `src/` — computing `initialPrice * (1 - 1/leverage)` for long and
`initialPrice * (1 + 1/leverage)` for short. -/
def liquidationPrice (initialPrice : ℚ) (direction : Direction) (leverage : ℚ) : ℚ :=
  match direction with
  | .long => initialPrice * (1 - 1 / leverage)
  | .short => initialPrice * (1 + 1 / leverage)

/-- the combined result `{entries, liquidationPrice}` of §6. -/
structure ComputeResult where
  entries : List Position
  liquidationPrice : ℚ
deriving DecidableEq, Repr

/-- Modelled from the spec: the `compute` entry point of the
`CalculatorFacade` (§4.4, §6) — absent from `src/`, where the UI calls
`generatePositions` directly — validating the §3 invariants before any
computation and otherwise assembling the plan and the liquidation
price. -/
def compute (v : CalculatorForm) : Except ValidationError ComputeResult :=
  if validInput v then
    .ok { entries := generatePositions v,
          liquidationPrice := liquidationPrice v.initialPrice v.direction v.leverage }
  else
    .error .invalidInput

/-- per-step multiplier of the price ladder: `1 - priceStep` for long,
`1 + priceStep` for short. -/
def stepFactor (direction : Direction) : ℚ :=
  match direction with
  | .long => 1 - priceStep
  | .short => 1 + priceStep

/-- closed form, used by the proofs below, of the ladder price at
0-based step `k`: `initialPrice * stepFactor ^ k`. Related to
`generatePositions` by `generatePositions_getD`. -/
def priceAt (direction : Direction) (p0 : ℚ) (k : ℕ) : ℚ :=
  p0 * stepFactor direction ^ k

/-- closed form of the running total `totalAmount` after 0-based step
`k`: the constant per-step amount times the number of steps so far. -/
def stateAmount (a : ℚ) (k : ℕ) : ℚ :=
  a * (k + 1)

/-- closed form of the running total `totalQty` after 0-based step `k`:
the sum of the per-step quantities `a / priceAt j` for `j = 0 … k`. -/
def qtySum (direction : Direction) (a p0 : ℚ) : ℕ → ℚ
  | 0 => a / priceAt direction p0 0
  | k + 1 => qtySum direction a p0 k + a / priceAt direction p0 (k + 1)

/-- closed form of the `Position` record emitted at 0-based step `k` by
the loop of `generatePositions` (proved by `generatePositions_getD`). -/
def mkEntry (direction : Direction) (a p0 : ℚ) (k : ℕ) : Position :=
  { key := k + 1,
    price := priceAt direction p0 k,
    amount := a / priceAt direction p0 k,
    entryAmount := a,
    totalAmount := stateAmount a k,
    totalQty := qtySum direction a p0 k,
    avgPrice := stateAmount a k / qtySum direction a p0 k,
    cumulativeLoss :=
      match direction with
      | .long =>
        (stateAmount a k / qtySum direction a p0 k - priceAt direction p0 k) *
          qtySum direction a p0 k
      | .short =>
        (priceAt direction p0 k - stateAmount a k / qtySum direction a p0 k) *
          qtySum direction a p0 k }

/-- C1: for every raw input violating an input invariant — `leverage = 0`,
or `additionalEntries = -1`, or `initialPrice = 0` — the `compute` entry
point returns the `InvalidInput` validation failure and produces no
entries (no computation runs: the error result carries no entry list). -/
theorem compute_rejects_invalid (v : CalculatorForm)
    (h : v.leverage = 0 ∨ v.additionalPositions = -1 ∨ v.initialPrice = 0) :
    compute v = Except.error ValidationError.invalidInput := by
  unfold compute
  rw [if_neg]
  rintro ⟨_, _, h3, h4, h5⟩
  rcases h with h | h | h
  · rw [h] at h5
    exact lt_irrefl 0 h5
  · rw [h] at h3
    omega
  · rw [h] at h4
    exact lt_irrefl 0 h4

theorem compute_rejects_invalid_witness :
    ((⟨100, 1, 2, Direction.long, 1, 0⟩ : CalculatorForm).leverage = 0 ∨
      (⟨100, 1, 2, Direction.long, 1, 0⟩ : CalculatorForm).additionalPositions = -1 ∨
      (⟨100, 1, 2, Direction.long, 1, 0⟩ : CalculatorForm).initialPrice = 0) ∧
    compute ⟨100, 1, 2, Direction.long, 1, 0⟩ =
      Except.error ValidationError.invalidInput :=
  ⟨Or.inl rfl, compute_rejects_invalid ⟨100, 1, 2, Direction.long, 1, 0⟩ (Or.inl rfl)⟩

/-- C3 counterexample: at precision 2 the formatter's fallback for a
non-numeric input is the fixed string `"0.0000"`, not `"0.00"` (the
value `"0"` rendered at precision 2), refuting the claim as stated. -/
theorem formatNumber_fallback_cex :
    formatNumber JSNumber.nan 2 = "0.0000" ∧ formatNumber JSNumber.nan 2 ≠ "0.00" :=
  ⟨rfl, by decide⟩

/-- C3 amended: for every non-numeric or undefined input and every
decimal precision, the formatter returns the fixed fallback string
`"0.0000"` (the value `0` rendered at 4 decimals, whatever the requested
precision) instead of raising. -/
theorem formatNumber_fallback_constant :
    ∀ decimals : ℕ, formatNumber JSNumber.nan decimals = "0.0000" :=
  fun _ => rfl

/-- C8: two valid inputs that differ only in `leverage` produce identical
entry sequences — `generatePositions` never reads `leverage`. -/
theorem leverage_independent (v w : CalculatorForm)
    (hv : validInput v) (hw : validInput w)
    (h1 : v.maxLoss = w.maxLoss)
    (h2 : v.additionalPositionAmount = w.additionalPositionAmount)
    (h3 : v.additionalPositions = w.additionalPositions)
    (h4 : v.direction = w.direction)
    (h5 : v.initialPrice = w.initialPrice) :
    generatePositions v = generatePositions w := by
  cases v
  cases w
  simp only [CalculatorForm.mk.injEq] at *
  simp_all [generatePositions]

theorem leverage_independent_witness :
    validInput ⟨100, 1, 2, Direction.long, 1, 3⟩ ∧
    validInput ⟨100, 1, 2, Direction.long, 1, 7⟩ ∧
    generatePositions ⟨100, 1, 2, Direction.long, 1, 3⟩ =
      generatePositions ⟨100, 1, 2, Direction.long, 1, 7⟩ :=
  ⟨by decide, by decide,
    leverage_independent ⟨100, 1, 2, Direction.long, 1, 3⟩
      ⟨100, 1, 2, Direction.long, 1, 7⟩ (by decide) (by decide)
      rfl rfl rfl rfl rfl⟩

/-- C9: a negative `additionalPositions` (such as `-1`) makes the loop
bound `additionalPositions + 1` non-positive, so the loop body never
runs: the generator totally computes the empty sequence. -/
theorem negative_additional_entries_empty (v : CalculatorForm)
    (h : v.additionalPositions < 0) :
    generatePositions v = [] := by
  show genFrom v.direction (v.maxLoss * v.additionalPositionAmount)
    (v.additionalPositions + 1).toNat 0 v.initialPrice 0 0 = []
  rw [Int.toNat_of_nonpos (by omega)]
  rfl

theorem negative_additional_entries_empty_witness :
    (⟨100, 1, -1, Direction.long, 1, 3⟩ : CalculatorForm).additionalPositions < 0 ∧
    generatePositions ⟨100, 1, -1, Direction.long, 1, 3⟩ = [] :=
  ⟨by decide,
    negative_additional_entries_empty ⟨100, 1, -1, Direction.long, 1, 3⟩ (by decide)⟩

theorem stepPrice_priceAt (d : Direction) (p0 : ℚ) (i : ℕ) :
    stepPrice d (priceAt d p0 i) = priceAt d p0 (i + 1) := by
  cases d <;> simp only [stepPrice, priceAt, stepFactor, pow_succ] <;> ring

theorem stateAmount_succ (a : ℚ) (i : ℕ) :
    stateAmount a i + a = stateAmount a (i + 1) := by
  unfold stateAmount
  push_cast
  ring

theorem qtySum_succ (d : Direction) (a p0 : ℚ) (i : ℕ) :
    qtySum d a p0 i + a / priceAt d p0 (i + 1) = qtySum d a p0 (i + 1) := by
  rw [qtySum]

theorem priceAt_zero (d : Direction) (p0 : ℚ) : priceAt d p0 0 = p0 := by
  simp [priceAt]

theorem qtySum_zero (d : Direction) (a p0 : ℚ) : qtySum d a p0 0 = a / p0 := by
  rw [qtySum, priceAt_zero]

theorem stateAmount_zero (a : ℚ) : stateAmount a 0 = a := by
  simp [stateAmount]

theorem genFrom_succ_state (d : Direction) (a p0 : ℚ) (r i : ℕ) :
    genFrom d a (r + 1) (i + 1) (priceAt d p0 i) (stateAmount a i) (qtySum d a p0 i) =
      mkEntry d a p0 (i + 1) ::
        genFrom d a r (i + 1 + 1) (priceAt d p0 (i + 1)) (stateAmount a (i + 1))
          (qtySum d a p0 (i + 1)) := by
  have hpos : 0 < i + 1 := Nat.succ_pos i
  simp only [genFrom, if_pos hpos]
  rw [stepPrice_priceAt, stateAmount_succ, qtySum_succ]
  rfl

theorem genFrom_first (d : Direction) (a p0 : ℚ) (r : ℕ) :
    genFrom d a (r + 1) 0 p0 0 0 =
      mkEntry d a p0 0 ::
        genFrom d a r (0 + 1) (priceAt d p0 0) (stateAmount a 0) (qtySum d a p0 0) := by
  simp only [genFrom]
  rw [if_neg (lt_irrefl 0)]
  congr 1
  · rw [mkEntry.eq_def, priceAt_zero, stateAmount_zero, qtySum_zero, zero_add a,
      zero_add (a / p0)]
  · rw [priceAt_zero, stateAmount_zero, qtySum_zero, zero_add a, zero_add (a / p0)]

theorem genFrom_get_aux (d : Direction) (a p0 : ℚ) :
    ∀ r i k, k < r →
      (genFrom d a r (i + 1) (priceAt d p0 i) (stateAmount a i)
          (qtySum d a p0 i)).get? k = some (mkEntry d a p0 (i + 1 + k)) := by
  intro r
  induction r with
  | zero => intro i k hk; exact absurd hk (Nat.not_lt_zero k)
  | succ r ih =>
    intro i k hk
    rw [genFrom_succ_state]
    cases k with
    | zero => rfl
    | succ k =>
      simp only [List.get?]
      rw [ih (i + 1) k (Nat.lt_of_succ_lt_succ hk)]
      have he : i + 1 + 1 + k = i + 1 + (k + 1) := by omega
      rw [he]

theorem genFrom_length (d : Direction) (a : ℚ) :
    ∀ r i p ta tq, (genFrom d a r i p ta tq).length = r := by
  intro r
  induction r with
  | zero => intro i p ta tq; rfl
  | succ r ih => intro i p ta tq; simp [genFrom, ih]

theorem generatePositions_length (v : CalculatorForm) :
    (generatePositions v).length = (v.additionalPositions + 1).toNat :=
  genFrom_length v.direction (v.maxLoss * v.additionalPositionAmount) _ 0 v.initialPrice 0 0

theorem generatePositions_get? (v : CalculatorForm) (k : ℕ)
    (hk : k < (v.additionalPositions + 1).toNat) :
    (generatePositions v).get? k =
      some (mkEntry v.direction (v.maxLoss * v.additionalPositionAmount)
        v.initialPrice k) := by
  show (genFrom v.direction (v.maxLoss * v.additionalPositionAmount)
      (v.additionalPositions + 1).toNat 0 v.initialPrice 0 0).get? k = _
  cases hn : (v.additionalPositions + 1).toNat with
  | zero => rw [hn] at hk; exact absurd hk (Nat.not_lt_zero k)
  | succ n =>
    rw [hn] at hk
    rw [genFrom_first]
    cases k with
    | zero => rfl
    | succ k =>
      simp only [List.get?]
      rw [genFrom_get_aux v.direction (v.maxLoss * v.additionalPositionAmount)
        v.initialPrice n 0 k (Nat.lt_of_succ_lt_succ hk)]
      have he : 0 + 1 + k = k + 1 := by omega
      rw [he]

theorem generatePositions_getD (v : CalculatorForm) (k : ℕ)
    (hk : k < (generatePositions v).length) :
    (generatePositions v).getD k default =
      mkEntry v.direction (v.maxLoss * v.additionalPositionAmount) v.initialPrice k := by
  rw [List.getD_eq_getD_get?,
    generatePositions_get? v k (by rw [generatePositions_length] at hk; exact hk)]
  rfl

theorem stepFactor_pos (d : Direction) : 0 < stepFactor d := by
  cases d <;> norm_num [stepFactor, priceStep]

theorem stepFactor_long_lt_one : stepFactor Direction.long < 1 := by
  norm_num [stepFactor, priceStep]

theorem stepFactor_short_gt_one : 1 < stepFactor Direction.short := by
  norm_num [stepFactor, priceStep]

theorem priceAt_pos (d : Direction) (p0 : ℚ) (hp : 0 < p0) (k : ℕ) :
    0 < priceAt d p0 k :=
  mul_pos hp (pow_pos (stepFactor_pos d) k)

theorem qtySum_pos (d : Direction) (a p0 : ℚ) (ha : 0 < a) (hp : 0 < p0) (k : ℕ) :
    0 < qtySum d a p0 k := by
  induction k with
  | zero => rw [qtySum_zero]; exact div_pos ha hp
  | succ k ih =>
    rw [← qtySum_succ]
    exact add_pos ih (div_pos ha (priceAt_pos d p0 hp (k + 1)))

theorem qtySum_eq_sum (d : Direction) (a p0 : ℚ) (k : ℕ) :
    qtySum d a p0 k = ∑ j in Finset.range (k + 1), a / priceAt d p0 j := by
  induction k with
  | zero => rw [Finset.sum_range_one, qtySum]
  | succ k ih => rw [← qtySum_succ, ih, ← Finset.sum_range_succ]

theorem priceAt_long_antitone (p0 : ℚ) (hp : 0 < p0) {j k : ℕ} (hjk : j ≤ k) :
    priceAt Direction.long p0 k ≤ priceAt Direction.long p0 j :=
  mul_le_mul_of_nonneg_left
    (pow_le_pow_of_le_one (stepFactor_pos Direction.long).le
      stepFactor_long_lt_one.le hjk) hp.le

theorem priceAt_long_le_p0 (p0 : ℚ) (hp : 0 < p0) (j : ℕ) :
    priceAt Direction.long p0 j ≤ p0 := by
  unfold priceAt
  calc p0 * stepFactor Direction.long ^ j ≤ p0 * 1 :=
      mul_le_mul_of_nonneg_left
        (pow_le_one₀ (stepFactor_pos Direction.long).le stepFactor_long_lt_one.le) hp.le
    _ = p0 := mul_one p0

theorem priceAt_short_monotone (p0 : ℚ) (hp : 0 < p0) {j k : ℕ} (hjk : j ≤ k) :
    priceAt Direction.short p0 j ≤ priceAt Direction.short p0 k :=
  mul_le_mul_of_nonneg_left (pow_le_pow_right₀ stepFactor_short_gt_one.le hjk) hp.le

theorem p0_le_priceAt_short (p0 : ℚ) (hp : 0 < p0) (j : ℕ) :
    p0 ≤ priceAt Direction.short p0 j := by
  unfold priceAt
  calc p0 = p0 * 1 := (mul_one p0).symm
    _ ≤ p0 * stepFactor Direction.short ^ j :=
      mul_le_mul_of_nonneg_left (one_le_pow₀ stepFactor_short_gt_one.le) hp.le

theorem mean_le_of_bounds (a : ℚ) (q : ℕ → ℚ) (m M : ℚ) (k : ℕ)
    (ha : 0 < a) (hm : 0 < m)
    (hlo : ∀ j, j ≤ k → m ≤ q j) (hhi : ∀ j, j ≤ k → q j ≤ M) :
    m ≤ stateAmount a k / ∑ j in Finset.range (k + 1), a / q j ∧
      stateAmount a k / ∑ j in Finset.range (k + 1), a / q j ≤ M := by
  have hM : 0 < M :=
    lt_of_lt_of_le hm ((hlo 0 (Nat.zero_le k)).trans (hhi 0 (Nat.zero_le k)))
  have hm0 : m ≠ 0 := ne_of_gt hm
  have hM0 : M ≠ 0 := ne_of_gt hM
  have hq : ∀ j, j ≤ k → 0 < q j := fun j hj => lt_of_lt_of_le hm (hlo j hj)
  have hmem : ∀ j ∈ Finset.range (k + 1), j ≤ k := fun j hj =>
    Nat.lt_succ_iff.mp (Finset.mem_range.mp hj)
  have hDpos : 0 < ∑ j in Finset.range (k + 1), a / q j :=
    Finset.sum_pos (fun j hj => div_pos ha (hq j (hmem j hj)))
      ⟨0, Finset.mem_range.mpr (Nat.succ_pos k)⟩
  have hDle : ∑ j in Finset.range (k + 1), a / q j ≤ ((k : ℚ) + 1) * (a / m) := by
    calc ∑ j in Finset.range (k + 1), a / q j
        ≤ ∑ _j in Finset.range (k + 1), a / m := by
          refine Finset.sum_le_sum fun j hj => ?_
          gcongr
          exact hlo j (hmem j hj)
      _ = ((k : ℚ) + 1) * (a / m) := by
          rw [Finset.sum_const, Finset.card_range, nsmul_eq_mul]
          push_cast
          ring
  have hDge : ((k : ℚ) + 1) * (a / M) ≤ ∑ j in Finset.range (k + 1), a / q j := by
    calc ((k : ℚ) + 1) * (a / M)
        = ∑ _j in Finset.range (k + 1), a / M := by
          rw [Finset.sum_const, Finset.card_range, nsmul_eq_mul]
          push_cast
          ring
      _ ≤ ∑ j in Finset.range (k + 1), a / q j := by
          refine Finset.sum_le_sum fun j hj => ?_
          gcongr
          · exact hq j (hmem j hj)
          · exact hhi j (hmem j hj)
  constructor
  · rw [le_div_iff₀ hDpos]
    calc m * ∑ j in Finset.range (k + 1), a / q j
        ≤ m * (((k : ℚ) + 1) * (a / m)) := mul_le_mul_of_nonneg_left hDle hm.le
      _ = ((k : ℚ) + 1) * (a / m * m) := by ring
      _ = ((k : ℚ) + 1) * a := by rw [div_mul_cancel₀ a hm0]
      _ = stateAmount a k := by unfold stateAmount; ring
  · rw [div_le_iff₀ hDpos]
    calc stateAmount a k = ((k : ℚ) + 1) * a := by unfold stateAmount; ring
      _ = ((k : ℚ) + 1) * (a / M * M) := by rw [div_mul_cancel₀ a hM0]
      _ = M * (((k : ℚ) + 1) * (a / M)) := by ring
      _ ≤ M * ∑ j in Finset.range (k + 1), a / q j :=
          mul_le_mul_of_nonneg_left hDge hM.le

theorem avg_bounds_long (a p0 : ℚ) (ha : 0 < a) (hp : 0 < p0) (k : ℕ) :
    priceAt Direction.long p0 k ≤ stateAmount a k / qtySum Direction.long a p0 k ∧
      stateAmount a k / qtySum Direction.long a p0 k ≤ p0 := by
  rw [qtySum_eq_sum]
  exact mean_le_of_bounds a (priceAt Direction.long p0) (priceAt Direction.long p0 k) p0 k
    ha (priceAt_pos Direction.long p0 hp k)
    (fun j hj => priceAt_long_antitone p0 hp hj)
    (fun j _hj => priceAt_long_le_p0 p0 hp j)

theorem avg_bounds_short (a p0 : ℚ) (ha : 0 < a) (hp : 0 < p0) (k : ℕ) :
    p0 ≤ stateAmount a k / qtySum Direction.short a p0 k ∧
      stateAmount a k / qtySum Direction.short a p0 k ≤ priceAt Direction.short p0 k := by
  rw [qtySum_eq_sum]
  exact mean_le_of_bounds a (priceAt Direction.short p0) p0 (priceAt Direction.short p0 k) k
    ha hp (fun j _hj => p0_le_priceAt_short p0 hp j)
    (fun j hj => priceAt_short_monotone p0 hp hj)

theorem priceAt_succ (d : Direction) (p0 : ℚ) (k : ℕ) :
    priceAt d p0 (k + 1) = priceAt d p0 k * stepFactor d := by
  unfold priceAt
  rw [pow_succ]
  ring

/-- C2: for every valid input `compute` succeeds with liquidation price
`initialPrice * (1 - 1/leverage)` for long and
`initialPrice * (1 + 1/leverage)` for short; and any two valid inputs
agreeing on `initialPrice`, `direction` and `leverage` (the
entry-sequence parameters left free) get the same liquidation price. -/
theorem compute_liquidation_formula (v w : CalculatorForm)
    (hv : validInput v) (hw : validInput w)
    (hp : v.initialPrice = w.initialPrice) (hd : v.direction = w.direction)
    (hl : v.leverage = w.leverage) :
    ∃ rv rw, compute v = Except.ok rv ∧ compute w = Except.ok rw ∧
      rv.liquidationPrice =
        (match v.direction with
          | Direction.long => v.initialPrice * (1 - 1 / v.leverage)
          | Direction.short => v.initialPrice * (1 + 1 / v.leverage)) ∧
      rv.liquidationPrice = rw.liquidationPrice := by
  unfold compute
  rw [if_pos hv, if_pos hw]
  refine ⟨_, _, rfl, rfl, ?_, ?_⟩
  · cases hdir : v.direction <;> simp [liquidationPrice, hdir]
  · show liquidationPrice v.initialPrice v.direction v.leverage =
      liquidationPrice w.initialPrice w.direction w.leverage
    rw [hp, hd, hl]

theorem compute_liquidation_formula_witness :
    validInput ⟨100, 1, 2, Direction.long, 1, 3⟩ ∧
    validInput ⟨100, 1, 5, Direction.long, 1, 3⟩ ∧
    (⟨100, 1, 2, Direction.long, 1, 3⟩ : CalculatorForm).initialPrice =
      (⟨100, 1, 5, Direction.long, 1, 3⟩ : CalculatorForm).initialPrice ∧
    (⟨100, 1, 2, Direction.long, 1, 3⟩ : CalculatorForm).direction =
      (⟨100, 1, 5, Direction.long, 1, 3⟩ : CalculatorForm).direction ∧
    (⟨100, 1, 2, Direction.long, 1, 3⟩ : CalculatorForm).leverage =
      (⟨100, 1, 5, Direction.long, 1, 3⟩ : CalculatorForm).leverage ∧
    (∃ rv rw, compute ⟨100, 1, 2, Direction.long, 1, 3⟩ = Except.ok rv ∧
      compute ⟨100, 1, 5, Direction.long, 1, 3⟩ = Except.ok rw ∧
      rv.liquidationPrice =
        (match (⟨100, 1, 2, Direction.long, 1, 3⟩ : CalculatorForm).direction with
          | Direction.long =>
            (⟨100, 1, 2, Direction.long, 1, 3⟩ : CalculatorForm).initialPrice *
              (1 - 1 / (⟨100, 1, 2, Direction.long, 1, 3⟩ : CalculatorForm).leverage)
          | Direction.short =>
            (⟨100, 1, 2, Direction.long, 1, 3⟩ : CalculatorForm).initialPrice *
              (1 + 1 / (⟨100, 1, 2, Direction.long, 1, 3⟩ : CalculatorForm).leverage)) ∧
      rv.liquidationPrice = rw.liquidationPrice) :=
  ⟨by decide, by decide, rfl, rfl, rfl,
    compute_liquidation_formula ⟨100, 1, 2, Direction.long, 1, 3⟩
      ⟨100, 1, 5, Direction.long, 1, 3⟩ (by decide) (by decide) rfl rfl rfl⟩

/-- C4: for every valid input with at least one additional entry, each
entry after the first has price equal to the previous entry's price
multiplied by `(1 - priceStep)` for long (hence strictly decreasing)
and by `(1 + priceStep)` for short (hence strictly increasing): the
multiplier applies to the previous step's price, not to `initialPrice`
— a geometric ladder with `priceStep = 0.05`. -/
theorem price_ladder_geometric (v : CalculatorForm) (hv : validInput v)
    (_hadd : 1 ≤ v.additionalPositions) (k : ℕ)
    (hk : k + 1 < (generatePositions v).length) :
    (v.direction = Direction.long →
      ((generatePositions v).getD (k + 1) default).price =
        ((generatePositions v).getD k default).price * (1 - priceStep) ∧
      ((generatePositions v).getD (k + 1) default).price <
        ((generatePositions v).getD k default).price) ∧
    (v.direction = Direction.short →
      ((generatePositions v).getD (k + 1) default).price =
        ((generatePositions v).getD k default).price * (1 + priceStep) ∧
      ((generatePositions v).getD k default).price <
        ((generatePositions v).getD (k + 1) default).price) := by
  have hp : 0 < v.initialPrice := hv.2.2.2.1
  rw [generatePositions_getD v (k + 1) hk,
    generatePositions_getD v k (Nat.lt_of_succ_lt hk)]
  constructor
  · intro hd
    rw [hd]
    constructor
    · show priceAt Direction.long v.initialPrice (k + 1) =
        priceAt Direction.long v.initialPrice k * (1 - priceStep)
      simp only [priceAt_succ, stepFactor]
    · show priceAt Direction.long v.initialPrice (k + 1) <
        priceAt Direction.long v.initialPrice k
      rw [priceAt_succ]
      exact mul_lt_of_lt_one_right (priceAt_pos Direction.long v.initialPrice hp k)
        stepFactor_long_lt_one
  · intro hd
    rw [hd]
    constructor
    · show priceAt Direction.short v.initialPrice (k + 1) =
        priceAt Direction.short v.initialPrice k * (1 + priceStep)
      simp only [priceAt_succ, stepFactor]
    · show priceAt Direction.short v.initialPrice k <
        priceAt Direction.short v.initialPrice (k + 1)
      rw [priceAt_succ]
      exact lt_mul_of_one_lt_right (priceAt_pos Direction.short v.initialPrice hp k)
        stepFactor_short_gt_one

theorem price_ladder_geometric_witness :
    validInput ⟨100, 1, 2, Direction.long, 1, 3⟩ ∧
    1 ≤ (⟨100, 1, 2, Direction.long, 1, 3⟩ : CalculatorForm).additionalPositions ∧
    0 + 1 < (generatePositions ⟨100, 1, 2, Direction.long, 1, 3⟩).length ∧
    ((⟨100, 1, 2, Direction.long, 1, 3⟩ : CalculatorForm).direction = Direction.long →
      ((generatePositions ⟨100, 1, 2, Direction.long, 1, 3⟩).getD (0 + 1) default).price =
        ((generatePositions ⟨100, 1, 2, Direction.long, 1, 3⟩).getD 0 default).price *
          (1 - priceStep) ∧
      ((generatePositions ⟨100, 1, 2, Direction.long, 1, 3⟩).getD (0 + 1) default).price <
        ((generatePositions ⟨100, 1, 2, Direction.long, 1, 3⟩).getD 0 default).price) ∧
    ((⟨100, 1, 2, Direction.long, 1, 3⟩ : CalculatorForm).direction = Direction.short →
      ((generatePositions ⟨100, 1, 2, Direction.long, 1, 3⟩).getD (0 + 1) default).price =
        ((generatePositions ⟨100, 1, 2, Direction.long, 1, 3⟩).getD 0 default).price *
          (1 + priceStep) ∧
      ((generatePositions ⟨100, 1, 2, Direction.long, 1, 3⟩).getD 0 default).price <
        ((generatePositions ⟨100, 1, 2, Direction.long, 1, 3⟩).getD (0 + 1) default).price) := by
  have hlen : 0 + 1 < (generatePositions ⟨100, 1, 2, Direction.long, 1, 3⟩).length := by
    rw [generatePositions_length]
    decide
  have h := price_ladder_geometric ⟨100, 1, 2, Direction.long, 1, 3⟩ (by decide)
    (by decide) 0 hlen
  exact ⟨by decide, by decide, hlen, h.1, h.2⟩

/-- C5: for every valid input with `additionalEntries = 0` the generator
returns exactly one entry, with `price = initialPrice`,
`averagePrice = initialPrice` and `cumulativeLoss = 0`. -/
theorem single_entry_identity (v : CalculatorForm) (hv : validInput v)
    (h0 : v.additionalPositions = 0) :
    (generatePositions v).length = 1 ∧
    ((generatePositions v).getD 0 default).price = v.initialPrice ∧
    ((generatePositions v).getD 0 default).avgPrice = v.initialPrice ∧
    ((generatePositions v).getD 0 default).cumulativeLoss = 0 := by
  have ha : 0 < v.maxLoss * v.additionalPositionAmount := mul_pos hv.1 hv.2.1
  have hlen : (generatePositions v).length = 1 := by
    rw [generatePositions_length, h0]
    rfl
  have h00 : (generatePositions v).getD 0 default =
      mkEntry v.direction (v.maxLoss * v.additionalPositionAmount) v.initialPrice 0 :=
    generatePositions_getD v 0 (by rw [hlen]; exact Nat.zero_lt_one)
  have havg : ∀ d, stateAmount (v.maxLoss * v.additionalPositionAmount) 0 /
      qtySum d (v.maxLoss * v.additionalPositionAmount) v.initialPrice 0 =
      v.initialPrice := fun d => by
    rw [stateAmount_zero, qtySum_zero, div_div_eq_mul_div,
      mul_comm (v.maxLoss * v.additionalPositionAmount) v.initialPrice, mul_div_assoc,
      div_self (ne_of_gt ha), mul_one]
  refine ⟨hlen, ?_, ?_, ?_⟩
  · rw [h00]
    exact priceAt_zero v.direction v.initialPrice
  · rw [h00]
    exact havg v.direction
  · rw [h00]
    cases hd : v.direction
    · show (stateAmount (v.maxLoss * v.additionalPositionAmount) 0 /
          qtySum Direction.long (v.maxLoss * v.additionalPositionAmount) v.initialPrice 0 -
          priceAt Direction.long v.initialPrice 0) *
          qtySum Direction.long (v.maxLoss * v.additionalPositionAmount) v.initialPrice 0 = 0
      rw [havg Direction.long, priceAt_zero, sub_self, zero_mul]
    · show (priceAt Direction.short v.initialPrice 0 -
          stateAmount (v.maxLoss * v.additionalPositionAmount) 0 /
          qtySum Direction.short (v.maxLoss * v.additionalPositionAmount) v.initialPrice 0) *
          qtySum Direction.short (v.maxLoss * v.additionalPositionAmount) v.initialPrice 0 = 0
      rw [havg Direction.short, priceAt_zero, sub_self, zero_mul]

theorem single_entry_identity_witness :
    validInput ⟨100, 1, 0, Direction.long, 1, 3⟩ ∧
    (⟨100, 1, 0, Direction.long, 1, 3⟩ : CalculatorForm).additionalPositions = 0 ∧
    ((generatePositions ⟨100, 1, 0, Direction.long, 1, 3⟩).length = 1 ∧
      ((generatePositions ⟨100, 1, 0, Direction.long, 1, 3⟩).getD 0 default).price =
        (⟨100, 1, 0, Direction.long, 1, 3⟩ : CalculatorForm).initialPrice ∧
      ((generatePositions ⟨100, 1, 0, Direction.long, 1, 3⟩).getD 0 default).avgPrice =
        (⟨100, 1, 0, Direction.long, 1, 3⟩ : CalculatorForm).initialPrice ∧
      ((generatePositions ⟨100, 1, 0, Direction.long, 1, 3⟩).getD 0
        default).cumulativeLoss = 0) :=
  ⟨by decide, rfl,
    single_entry_identity ⟨100, 1, 0, Direction.long, 1, 3⟩ (by decide) rfl⟩

/-- C6: for every valid input and step `k` (0-based here, so step `k` is
the (k+1)-th entry), `entryAmount` equals
`riskBudget * entryRatio` (the same constant at every step including
the first), `cumulativeAmount` equals `entryAmount * (k + 1)` exactly,
and `cumulativeQty` equals the sum of `entryQty` over steps `0 … k`. -/
theorem accumulation_round_trip (v : CalculatorForm) (_hv : validInput v) (k : ℕ)
    (hk : k < (generatePositions v).length) :
    ((generatePositions v).getD k default).entryAmount =
      v.maxLoss * v.additionalPositionAmount ∧
    ((generatePositions v).getD k default).totalAmount =
      ((generatePositions v).getD k default).entryAmount * (k + 1) ∧
    ((generatePositions v).getD k default).totalQty =
      ∑ j in Finset.range (k + 1), ((generatePositions v).getD j default).amount := by
  have hgd : ∀ j, j ≤ k → (generatePositions v).getD j default =
      mkEntry v.direction (v.maxLoss * v.additionalPositionAmount) v.initialPrice j :=
    fun j hj => generatePositions_getD v j (lt_of_le_of_lt hj hk)
  refine ⟨?_, ?_, ?_⟩
  · rw [hgd k le_rfl]
    rfl
  · rw [hgd k le_rfl]
    rfl
  · rw [hgd k le_rfl]
    show qtySum v.direction (v.maxLoss * v.additionalPositionAmount) v.initialPrice k = _
    rw [qtySum_eq_sum]
    refine Finset.sum_congr rfl fun j hj => ?_
    rw [hgd j (Nat.lt_succ_iff.mp (Finset.mem_range.mp hj))]
    rfl

theorem accumulation_round_trip_witness :
    validInput ⟨100, 1, 2, Direction.long, 1, 3⟩ ∧
    2 < (generatePositions ⟨100, 1, 2, Direction.long, 1, 3⟩).length ∧
    (((generatePositions ⟨100, 1, 2, Direction.long, 1, 3⟩).getD 2 default).entryAmount =
      (⟨100, 1, 2, Direction.long, 1, 3⟩ : CalculatorForm).maxLoss *
        (⟨100, 1, 2, Direction.long, 1, 3⟩ : CalculatorForm).additionalPositionAmount ∧
    ((generatePositions ⟨100, 1, 2, Direction.long, 1, 3⟩).getD 2 default).totalAmount =
      ((generatePositions ⟨100, 1, 2, Direction.long, 1, 3⟩).getD 2 default).entryAmount *
        (2 + 1) ∧
    ((generatePositions ⟨100, 1, 2, Direction.long, 1, 3⟩).getD 2 default).totalQty =
      ∑ j in Finset.range (2 + 1),
        ((generatePositions ⟨100, 1, 2, Direction.long, 1, 3⟩).getD j default).amount) := by
  have hlen : 2 < (generatePositions ⟨100, 1, 2, Direction.long, 1, 3⟩).length := by
    rw [generatePositions_length]
    decide
  exact ⟨by decide, hlen,
    accumulation_round_trip ⟨100, 1, 2, Direction.long, 1, 3⟩ (by decide) 2 hlen⟩

theorem range_image_nonempty (f : ℕ → ℚ) (k : ℕ) :
    ((Finset.range (k + 1)).image f).Nonempty :=
  ⟨f 0, Finset.mem_image.mpr ⟨0, Finset.mem_range.mpr (Nat.succ_pos k), rfl⟩⟩

/-- C7: for every valid input and every entry, `averagePrice` lies
between the minimum and the maximum of the prices of the entries up to
and including that entry, inclusive. -/
theorem avg_price_bounds (v : CalculatorForm) (hv : validInput v) (k : ℕ)
    (hk : k < (generatePositions v).length) :
    ((Finset.range (k + 1)).image
        fun j => ((generatePositions v).getD j default).price).min'
        (range_image_nonempty _ k) ≤
      ((generatePositions v).getD k default).avgPrice ∧
    ((generatePositions v).getD k default).avgPrice ≤
      ((Finset.range (k + 1)).image
        fun j => ((generatePositions v).getD j default).price).max'
        (range_image_nonempty _ k) := by
  have ha : 0 < v.maxLoss * v.additionalPositionAmount := mul_pos hv.1 hv.2.1
  have hp : 0 < v.initialPrice := hv.2.2.2.1
  have hgd : ∀ j, j ≤ k → (generatePositions v).getD j default =
      mkEntry v.direction (v.maxLoss * v.additionalPositionAmount) v.initialPrice j :=
    fun j hj => generatePositions_getD v j (lt_of_le_of_lt hj hk)
  have hmemk : ((generatePositions v).getD k default).price ∈
      (Finset.range (k + 1)).image
        fun j => ((generatePositions v).getD j default).price :=
    Finset.mem_image_of_mem _ (Finset.mem_range.mpr (Nat.lt_succ_self k))
  have hmem0 : ((generatePositions v).getD 0 default).price ∈
      (Finset.range (k + 1)).image
        fun j => ((generatePositions v).getD j default).price :=
    Finset.mem_image_of_mem _ (Finset.mem_range.mpr (Nat.succ_pos k))
  have havg : ((generatePositions v).getD k default).avgPrice =
      stateAmount (v.maxLoss * v.additionalPositionAmount) k /
        qtySum v.direction (v.maxLoss * v.additionalPositionAmount) v.initialPrice k := by
    rw [hgd k le_rfl]
    rfl
  have hpk : ((generatePositions v).getD k default).price =
      priceAt v.direction v.initialPrice k := by
    rw [hgd k le_rfl]
    rfl
  have hp0 : ((generatePositions v).getD 0 default).price =
      priceAt v.direction v.initialPrice 0 := by
    rw [hgd 0 (Nat.zero_le k)]
    rfl
  cases hd : v.direction with
  | long =>
    constructor
    · refine le_trans (Finset.min'_le _ _ hmemk) ?_
      rw [hpk, havg, hd]
      exact (avg_bounds_long (v.maxLoss * v.additionalPositionAmount) v.initialPrice
        ha hp k).1
    · refine le_trans ?_ (Finset.le_max' _ _ hmem0)
      rw [hp0, havg, hd, priceAt_zero]
      exact (avg_bounds_long (v.maxLoss * v.additionalPositionAmount) v.initialPrice
        ha hp k).2
  | short =>
    constructor
    · refine le_trans (Finset.min'_le _ _ hmem0) ?_
      rw [hp0, havg, hd, priceAt_zero]
      exact (avg_bounds_short (v.maxLoss * v.additionalPositionAmount) v.initialPrice
        ha hp k).1
    · refine le_trans ?_ (Finset.le_max' _ _ hmemk)
      rw [hpk, havg, hd]
      exact (avg_bounds_short (v.maxLoss * v.additionalPositionAmount) v.initialPrice
        ha hp k).2

theorem avg_price_bounds_witness :
    validInput ⟨100, 1, 2, Direction.long, 1, 3⟩ ∧
    1 < (generatePositions ⟨100, 1, 2, Direction.long, 1, 3⟩).length ∧
    (((Finset.range (1 + 1)).image
        fun j => ((generatePositions ⟨100, 1, 2, Direction.long, 1, 3⟩).getD j
          default).price).min' (range_image_nonempty _ 1) ≤
      ((generatePositions ⟨100, 1, 2, Direction.long, 1, 3⟩).getD 1 default).avgPrice ∧
    ((generatePositions ⟨100, 1, 2, Direction.long, 1, 3⟩).getD 1 default).avgPrice ≤
      ((Finset.range (1 + 1)).image
        fun j => ((generatePositions ⟨100, 1, 2, Direction.long, 1, 3⟩).getD j
          default).price).max' (range_image_nonempty _ 1)) := by
  have hlen : 1 < (generatePositions ⟨100, 1, 2, Direction.long, 1, 3⟩).length := by
    rw [generatePositions_length]
    decide
  exact ⟨by decide, hlen,
    avg_price_bounds ⟨100, 1, 2, Direction.long, 1, 3⟩ (by decide) 1 hlen⟩

/-- C10: for every input with `riskBudget > 0`, `entryRatio > 0`,
`initialPrice > 0`, `additionalEntries ≥ 0`, every entry's
`cumulativeLoss` is nonnegative: for long the average price never falls
below the current (lowest-so-far) ladder price, symmetrically for
short. -/
theorem cumulative_loss_nonneg (v : CalculatorForm)
    (h1 : 0 < v.maxLoss) (h2 : 0 < v.additionalPositionAmount)
    (h3 : 0 < v.initialPrice) (_h4 : 0 ≤ v.additionalPositions) (k : ℕ)
    (hk : k < (generatePositions v).length) :
    0 ≤ ((generatePositions v).getD k default).cumulativeLoss ∧
    (v.direction = Direction.long →
      ((generatePositions v).getD k default).price ≤
        ((generatePositions v).getD k default).avgPrice) ∧
    (v.direction = Direction.short →
      ((generatePositions v).getD k default).avgPrice ≤
        ((generatePositions v).getD k default).price) := by
  have ha : 0 < v.maxLoss * v.additionalPositionAmount := mul_pos h1 h2
  rw [generatePositions_getD v k hk]
  cases hd : v.direction with
  | long =>
    have hb := avg_bounds_long (v.maxLoss * v.additionalPositionAmount) v.initialPrice
      ha h3 k
    have hq := qtySum_pos Direction.long (v.maxLoss * v.additionalPositionAmount)
      v.initialPrice ha h3 k
    exact ⟨mul_nonneg (sub_nonneg.mpr hb.1) hq.le, fun _ => hb.1,
      fun h => Direction.noConfusion h⟩
  | short =>
    have hb := avg_bounds_short (v.maxLoss * v.additionalPositionAmount) v.initialPrice
      ha h3 k
    have hq := qtySum_pos Direction.short (v.maxLoss * v.additionalPositionAmount)
      v.initialPrice ha h3 k
    exact ⟨mul_nonneg (sub_nonneg.mpr hb.2) hq.le, fun h => Direction.noConfusion h,
      fun _ => hb.2⟩

theorem cumulative_loss_nonneg_witness :
    0 < (⟨100, 1, 2, Direction.long, 1, 3⟩ : CalculatorForm).maxLoss ∧
    0 < (⟨100, 1, 2, Direction.long, 1, 3⟩ : CalculatorForm).additionalPositionAmount ∧
    0 < (⟨100, 1, 2, Direction.long, 1, 3⟩ : CalculatorForm).initialPrice ∧
    0 ≤ (⟨100, 1, 2, Direction.long, 1, 3⟩ : CalculatorForm).additionalPositions ∧
    1 < (generatePositions ⟨100, 1, 2, Direction.long, 1, 3⟩).length ∧
    (0 ≤ ((generatePositions ⟨100, 1, 2, Direction.long, 1, 3⟩).getD 1
        default).cumulativeLoss ∧
    ((⟨100, 1, 2, Direction.long, 1, 3⟩ : CalculatorForm).direction = Direction.long →
      ((generatePositions ⟨100, 1, 2, Direction.long, 1, 3⟩).getD 1 default).price ≤
        ((generatePositions ⟨100, 1, 2, Direction.long, 1, 3⟩).getD 1
          default).avgPrice) ∧
    ((⟨100, 1, 2, Direction.long, 1, 3⟩ : CalculatorForm).direction = Direction.short →
      ((generatePositions ⟨100, 1, 2, Direction.long, 1, 3⟩).getD 1 default).avgPrice ≤
        ((generatePositions ⟨100, 1, 2, Direction.long, 1, 3⟩).getD 1
          default).price)) := by
  have hlen : 1 < (generatePositions ⟨100, 1, 2, Direction.long, 1, 3⟩).length := by
    rw [generatePositions_length]
    decide
  exact ⟨by decide, by decide, by decide, by decide, hlen,
    cumulative_loss_nonneg ⟨100, 1, 2, Direction.long, 1, 3⟩ (by decide) (by decide)
      (by decide) (by decide) 1 hlen⟩

end VaultMind
